import Mathlib

/-!
Verification development for `convert-prototypes-to-json.py`, a one-shot
script that loads a pickled mapping, normalizes its `prototypes` field to a
plain nested list, and writes the result as indented JSON to a primary and a
secondary destination.

The embedding models:
  * numeric scalars (`PyNum`): Python ints, and floats restricted to integral
    values (whose `repr` is `n.0`), which is what the prototype tensors carry
    in the scenarios of interest;
  * decoded pickle contents (`SourceData`), with the `prototypes` field as a
    duck-typed object (`PyObj`) recording which conversion attributes
    (`numpy`, `tolist`) it exposes and what each conversion yields;
  * the exact text produced by `json.dump(obj, f, indent=2)` for the
    three-field document the script builds (`renderResultStr`), including
    `ensure_ascii` escaping with `\uXXXX` sequences and surrogate pairs;
  * a decoder for that document type standing in for `json.load`
    (`parseResult`); it accepts arbitrary inter-token whitespace but requires
    the fixed key order the script itself produces;
  * a filesystem (`FS`) of files and directories, with `open(..., "w")`
    failing when the parent directory is missing, and
    `mkdir(parents=True, exist_ok=True)` creating a directory chain;
  * the control flow of `convert_pickle_to_json` and `main`, including the
    caught-exception `sys.exit(1)` path and the uncaught-traceback path.
-/

set_option maxHeartbeats 1000000
set_option maxRecDepth 100000

namespace PrintMon

/-- A Python number as it appears in the prototypes data: an int, or a float
with integral value (rendered `n.0` by `repr`). -/
inductive PyNum where
  | int : Int → PyNum
  | float : Int → PyNum
  deriving DecidableEq, Repr

/-- The three-field JSON-compatible structure the script assembles
(`json_data` in the source). -/
structure ConversionResult where
  prototypes : List (List PyNum)
  class_names : List String
  defect_idx : Int
  deriving DecidableEq, Repr

/-- The duck-typed value found under the `prototypes` key of the unpickled
mapping: records which conversion attributes it exposes and what each
conversion path would produce.  `numpyTolist` is the value of
`x.numpy().tolist()`, `tolist` of `x.tolist()`, `asList` of `list(x)`. -/
structure PyObj where
  hasNumpy : Bool
  numpyTolist : List (List PyNum)
  hasTolist : Bool
  tolist : List (List PyNum)
  asList : List (List PyNum)
  deriving DecidableEq, Repr

/-- The decoded pickle mapping: each of the three keys the script reads may
be present or absent. -/
structure SourceData where
  prototypes : Option PyObj
  class_names : Option (List String)
  defect_idx : Option Int
  deriving DecidableEq, Repr

/-- Normalization of the `prototypes` field (source lines 23-32): dispatch in
order on `hasattr(x, "numpy")`, then `hasattr(x, "tolist")`, else `list(x)`;
an absent key defaults to the empty list. -/
def normalizePrototypes (d : SourceData) : List (List PyNum) :=
  match d.prototypes with
  | some o =>
    if o.hasNumpy then o.numpyTolist
    else if o.hasTolist then o.tolist
    else o.asList
  | none => []

/-- The pure data transformation of `convert_pickle_to_json` (source lines
23-39): normalized prototypes plus the two `dict.get` defaults. -/
def convertData (d : SourceData) : ConversionResult :=
  ⟨normalizePrototypes d, d.class_names.getD ["failure", "success"],
    d.defect_idx.getD 0⟩

/-! ## Rendering: the exact output of `json.dump(json_data, f, indent=2)` -/

/-- The opening brace character, by code point. -/
def lbrace : Char := Char.ofNat 123

/-- The closing brace character, by code point. -/
def rbrace : Char := Char.ofNat 125

/-- Decimal digit character for a value below 10. -/
def digitChar (n : Nat) : Char := Char.ofNat (48 + n)

/-- Accumulate the decimal digits of `n` in front of `acc`; `fuel` bounds the
recursion and any `fuel ≥ n` is enough. -/
def natDigitsAux : Nat → Nat → List Char → List Char
  | 0, _, acc => acc
  | fuel + 1, n, acc =>
    if n = 0 then acc else natDigitsAux fuel (n / 10) (digitChar (n % 10) :: acc)

/-- Decimal digit characters of `n` (for positive `n`; empty for 0). -/
def digitsOf (n : Nat) : List Char := natDigitsAux n n []

/-- Decimal rendering of a natural number, as `str` prints it. -/
def natDigits (n : Nat) : List Char := if n = 0 then ['0'] else digitsOf n

/-- Decimal rendering of an integer, as `str` prints it. -/
def renderIntL (i : Int) : List Char :=
  if i < 0 then '-' :: natDigits i.natAbs else natDigits i.natAbs

/-- Rendering of a number: ints as decimal, integral floats as `n.0`. -/
def renderNumL : PyNum → List Char
  | .int i => renderIntL i
  | .float i => renderIntL i ++ ['.', '0']

/-- Lowercase hexadecimal digit character for a value below 16. -/
def hexDigit (n : Nat) : Char :=
  if n < 10 then Char.ofNat (48 + n) else Char.ofNat (87 + n)

/-- Four lowercase hex digits of a value below 0x10000, as in `\uXXXX`. -/
def hex4 (n : Nat) : List Char :=
  [hexDigit (n / 4096 % 16), hexDigit (n / 256 % 16), hexDigit (n / 16 % 16),
    hexDigit (n % 16)]

/-- The `\uXXXX` escape(s) for a character outside the printable ASCII range:
a single escape for the basic plane, a surrogate pair above it.  This is what
`json.dump` emits with its default `ensure_ascii=True`. -/
def uEscape (c : Char) : List Char :=
  if c.toNat < 65536 then '\\' :: 'u' :: hex4 c.toNat
  else
    ('\\' :: 'u' :: hex4 (55296 + (c.toNat - 65536) / 1024)) ++
      ('\\' :: 'u' :: hex4 (56320 + (c.toNat - 65536) % 1024))

/-- Per-character JSON string escaping with `ensure_ascii=True`: the two-char
escapes for quote, backslash and the named controls, `\uXXXX` for other
controls and all non-ASCII, the raw character otherwise. -/
def escapeCharL (c : Char) : List Char :=
  if c = '\"' then ['\\', '\"']
  else if c = '\\' then ['\\', '\\']
  else if c = '\n' then ['\\', 'n']
  else if c = '\r' then ['\\', 'r']
  else if c = '\t' then ['\\', 't']
  else if c.toNat = 8 then ['\\', 'b']
  else if c.toNat = 12 then ['\\', 'f']
  else if c.toNat < 32 ∨ c.toNat > 126 then uEscape c
  else [c]

/-- Escape every character of a string body. -/
def escapeList : List Char → List Char
  | [] => []
  | c :: cs => escapeCharL c ++ escapeList cs

/-- A JSON string literal: quote, escaped body, quote. -/
def renderStringL (s : String) : List Char :=
  '\"' :: (escapeList s.data ++ ['\"'])

/-- Indentation for nesting level `k` with `indent=2`. -/
def indChars (k : Nat) : List Char := List.replicate (2 * k) ' '

/-- Array items, one per line, each prefixed by `pre` and separated by a
comma and newline, exactly as the `indent=2` encoder lays them out. -/
def renderItemsWith (pre : List Char) (f : α → List Char) : List α → List Char
  | [] => []
  | [x] => pre ++ f x
  | x :: y :: t => pre ++ (f x ++ (',' :: '\n' :: renderItemsWith pre f (y :: t)))

/-- A JSON array at nesting level `k` under `indent=2`: `[]` when empty,
otherwise the items each on their own line and a closing bracket on the
indentation of the enclosing level. -/
def renderArrWith (k : Nat) (f : α → List Char) (l : List α) : List Char :=
  match l with
  | [] => ['[', ']']
  | _ =>
    '[' :: '\n' ::
      (renderItemsWith (indChars (k + 1)) f l ++ ('\n' :: (indChars k ++ [']'])))

/-- The prototypes table: an array (level 1) of arrays (level 2) of numbers. -/
def renderProtosL (rows : List (List PyNum)) : List Char :=
  renderArrWith 1 (renderArrWith 2 renderNumL) rows

/-- The class names: an array (level 1) of strings. -/
def renderNamesL (names : List String) : List Char :=
  renderArrWith 1 renderStringL names

/-- The full document `json.dump` writes for the three-field dict, with
two-space indentation and the fixed key order
`prototypes, class_names, defect_idx`. -/
def renderResultL (r : ConversionResult) : List Char :=
  lbrace :: '\n' ::
    (indChars 1 ++ (renderStringL "prototypes" ++ (':' :: ' ' ::
      (renderProtosL r.prototypes ++ (',' :: '\n' ::
        (indChars 1 ++ (renderStringL "class_names" ++ (':' :: ' ' ::
          (renderNamesL r.class_names ++ (',' :: '\n' ::
            (indChars 1 ++ (renderStringL "defect_idx" ++ (':' :: ' ' ::
              (renderIntL r.defect_idx ++ ('\n' :: rbrace :: [])))))))))))))))

/-- The document as a string, as it lands in the output file. -/
def renderResultStr (r : ConversionResult) : String :=
  String.mk (renderResultL r)

/-! ## Decoding: a `json.load` for the document type the script writes

The decoder accepts arbitrary whitespace between tokens, general string
escapes, and general decimal numbers within the modelled value domain; it
requires the key order the script itself always produces. -/

/-- JSON inter-token whitespace. -/
def isWs (c : Char) : Bool := c = ' ' || c = '\n' || c = '\t' || c = '\r'

/-- Drop leading whitespace. -/
def skipWs : List Char → List Char
  | [] => []
  | c :: cs => if isWs c then skipWs cs else c :: cs

/-- Consume leading decimal digits, accumulating their value onto `acc`. -/
def parseDigitsAux (acc : Nat) : List Char → Nat × List Char
  | [] => (acc, [])
  | c :: cs =>
    if c.isDigit then parseDigitsAux (acc * 10 + (c.toNat - 48)) cs
    else (acc, c :: cs)

/-- Negate a parsed number. -/
def pyNegate : PyNum → PyNum
  | .int i => .int (-i)
  | .float i => .float (-i)

/-- Parse an unsigned number: digits, then an optional fraction.  A fraction
is accepted only when its digits denote zero, the only case expressible in
the integral-float value domain. -/
def parseNumPos (cs : List Char) : Option (PyNum × List Char) :=
  match cs with
  | [] => none
  | c :: _ =>
    if c.isDigit then
      match parseDigitsAux 0 cs with
      | (n, rest) =>
        match rest with
        | c2 :: rest2 =>
          if c2 = '.' then
            match rest2 with
            | d :: _ =>
              if d.isDigit then
                match parseDigitsAux 0 rest2 with
                | (frac, rest3) =>
                  if frac = 0 then some (.float (n : Int), rest3) else none
              else none
            | [] => none
          else some (.int (n : Int), c2 :: rest2)
        | [] => some (.int (n : Int), [])
    else none

/-- Parse a decimal number with optional leading minus sign. -/
def parseNum (cs : List Char) : Option (PyNum × List Char) :=
  match cs with
  | [] => none
  | c :: cs' =>
    if c = '-' then
      match parseNumPos cs' with
      | some (n, rest) => some (pyNegate n, rest)
      | none => none
    else parseNumPos (c :: cs')

/-- Value of a hexadecimal digit character. -/
def hexVal (c : Char) : Option Nat :=
  if '0' ≤ c ∧ c ≤ '9' then some (c.toNat - 48)
  else if 'a' ≤ c ∧ c ≤ 'f' then some (c.toNat - 87)
  else if 'A' ≤ c ∧ c ≤ 'F' then some (c.toNat - 55)
  else none

/-- Value of a four-hex-digit escape payload. -/
def hex4Val (a b c d : Char) : Option Nat := do
  let x ← hexVal a
  let y ← hexVal b
  let z ← hexVal c
  let w ← hexVal d
  some (4096 * x + 256 * y + 16 * z + w)

/-- The single-character escapes JSON accepts after a backslash. -/
def unescapeChar (e : Char) : Option Char :=
  if e = '\"' then some '\"'
  else if e = '\\' then some '\\'
  else if e = '/' then some '/'
  else if e = 'n' then some '\n'
  else if e = 'r' then some '\r'
  else if e = 't' then some '\t'
  else if e = 'b' then some (Char.ofNat 8)
  else if e = 'f' then some (Char.ofNat 12)
  else none

/-- Parse a JSON string body up to the closing quote, decoding escapes and
recombining surrogate pairs.  A lone surrogate escape is rejected (it has no
scalar-value representation).  `fuel` bounds the number of decoded
characters; every step consumes at least one input character, so any fuel
beyond the input length suffices. -/
def parseStrBodyF : Nat → List Char → Option (List Char × List Char)
  | 0, _ => none
  | fuel + 1, l =>
    match l with
    | [] => none
    | c :: cs =>
      if c = '\"' then some ([], cs)
      else if c = '\\' then
        match cs with
        | 'u' :: a :: b :: c1 :: d :: cs' =>
          match hex4Val a b c1 d with
          | none => none
          | some n =>
            if 55296 ≤ n ∧ n < 56320 then
              match cs' with
              | '\\' :: 'u' :: a2 :: b2 :: c2 :: d2 :: cs'' =>
                match hex4Val a2 b2 c2 d2 with
                | none => none
                | some m =>
                  if 56320 ≤ m ∧ m < 57344 then
                    match parseStrBodyF fuel cs'' with
                    | some (s, r) =>
                      some (Char.ofNat (65536 + 1024 * (n - 55296) + (m - 56320)) :: s, r)
                    | none => none
                  else none
              | _ => none
            else if 56320 ≤ n ∧ n < 57344 then none
            else
              match parseStrBodyF fuel cs' with
              | some (s, r) => some (Char.ofNat n :: s, r)
              | none => none
        | e :: cs' =>
          match unescapeChar e with
          | some c2 =>
            match parseStrBodyF fuel cs' with
            | some (s, r) => some (c2 :: s, r)
            | none => none
          | none => none
        | [] => none
      else
        match parseStrBodyF fuel cs with
        | some (s, r) => some (c :: s, r)
        | none => none

/-- Parse a JSON string body with enough fuel for its whole input. -/
def parseStrBody (cs : List Char) : Option (List Char × List Char) :=
  parseStrBodyF (cs.length + 1) cs

/-- Parse a JSON string literal. -/
def parseString (cs : List Char) : Option (String × List Char) :=
  match cs with
  | c :: cs' =>
    if c = '\"' then
      match parseStrBody cs' with
      | some (s, r) => some (String.mk s, r)
      | none => none
    else none
  | [] => none

/-- Parse the comma-separated items of a nonempty array, consuming the
closing bracket.  `fuel` bounds the item count; any `fuel` at least the
number of items suffices. -/
def parseItems (p : List Char → Option (α × List Char)) :
    Nat → List Char → Option (List α × List Char)
  | 0, _ => none
  | fuel + 1, cs =>
    match p cs with
    | none => none
    | some (x, cs1) =>
      match skipWs cs1 with
      | [] => none
      | c :: cs2 =>
        if c = ',' then
          match parseItems p fuel cs2 with
          | some (xs, cs3) => some (x :: xs, cs3)
          | none => none
        else if c = ']' then some ([x], cs2)
        else none

/-- Parse a JSON array with element parser `p`. -/
def parseArr (p : List Char → Option (α × List Char)) (cs0 : List Char) :
    Option (List α × List Char) :=
  match skipWs cs0 with
  | [] => none
  | c0 :: cs =>
    if c0 = '[' then
      match skipWs cs with
      | [] => none
      | c :: cs1 =>
        if c = ']' then some ([], cs1) else parseItems p (cs.length + 1) cs
    else none

/-- Number element parser: tolerate leading whitespace. -/
def parseNumWs (cs : List Char) : Option (PyNum × List Char) :=
  parseNum (skipWs cs)

/-- String element parser: tolerate leading whitespace. -/
def parseStringWs (cs : List Char) : Option (String × List Char) :=
  parseString (skipWs cs)

/-- Parse the prototypes table: an array of arrays of numbers. -/
def parseProtos (cs : List Char) : Option (List (List PyNum) × List Char) :=
  parseArr (parseArr parseNumWs) cs

/-- Parse the class names: an array of strings. -/
def parseNames (cs : List Char) : Option (List String × List Char) :=
  parseArr parseStringWs cs

/-- Expect a colon after optional whitespace. -/
def expectColon (cs : List Char) : Option (List Char) :=
  match skipWs cs with
  | c :: cs' => if c = ':' then some cs' else none
  | [] => none

/-- Expect a comma after optional whitespace. -/
def expectComma (cs : List Char) : Option (List Char) :=
  match skipWs cs with
  | c :: cs' => if c = ',' then some cs' else none
  | [] => none

/-- Decode the three-field document (the shape the script always writes, in
its fixed key order) from a string, standing in for `json.load`. -/
def parseResult (s : String) : Option ConversionResult :=
  match skipWs s.data with
  | c :: cs =>
    if c = lbrace then
      match parseString (skipWs cs) with
      | some (k1, cs1) =>
        if k1 = "prototypes" then
          match expectColon cs1 with
          | some cs2 =>
            match parseProtos cs2 with
            | some (protos, cs3) =>
              match expectComma cs3 with
              | some cs4 =>
                match parseString (skipWs cs4) with
                | some (k2, cs5) =>
                  if k2 = "class_names" then
                    match expectColon cs5 with
                    | some cs6 =>
                      match parseNames cs6 with
                      | some (names, cs7) =>
                        match expectComma cs7 with
                        | some cs8 =>
                          match parseString (skipWs cs8) with
                          | some (k3, cs9) =>
                            if k3 = "defect_idx" then
                              match expectColon cs9 with
                              | some cs10 =>
                                match parseNum (skipWs cs10) with
                                | some (.int i, cs11) =>
                                  match skipWs cs11 with
                                  | c2 :: cs12 =>
                                    if c2 = rbrace then
                                      match skipWs cs12 with
                                      | [] => some ⟨protos, names, i⟩
                                      | _ => none
                                    else none
                                  | [] => none
                                | _ => none
                              | none => none
                            else none
                          | none => none
                        | none => none
                      | none => none
                    | none => none
                  else none
                | none => none
              | none => none
            | none => none
          | none => none
        else none
      | none => none
    else none
  | [] => none

/-! ## Filesystem model -/

/-- A filesystem path, as a list of components. -/
abbrev Path := List String

/-- Contents of a file: a pickle of a decodable mapping, plain text, or bytes
that fail to unpickle. -/
inductive FileData where
  | pickle : SourceData → FileData
  | text : String → FileData
  | garbage : FileData
  deriving DecidableEq, Repr

/-- Association-list lookup over the file table. -/
def findFile : List (Path × FileData) → Path → Option FileData
  | [], _ => none
  | (q, d) :: rest, p => if q = p then some d else findFile rest p

/-- Write-or-overwrite into the file table. -/
def setFile : List (Path × FileData) → Path → FileData → List (Path × FileData)
  | [], p, d => [(p, d)]
  | (q, e) :: rest, p, d =>
    if q = p then (p, d) :: rest else (q, e) :: setFile rest p d

/-- Decidable membership in a list of paths. -/
def memPath : List Path → Path → Bool
  | [], _ => false
  | q :: t, p => if q = p then true else memPath t p

/-- The filesystem: existing directories and a file table. -/
structure FS where
  dirs : List Path
  files : List (Path × FileData)
  deriving DecidableEq, Repr

/-- `Path.exists()`: true for a file or a directory. -/
def pathExists (fs : FS) (p : Path) : Bool :=
  (findFile fs.files p).isSome || memPath fs.dirs p

/-- `open(p, "w")` followed by writing `s`: fails on a directory or when the
parent directory is missing; it never creates directories. -/
def writeText (fs : FS) (p : Path) (s : String) : Except String FS :=
  if memPath fs.dirs p then .error "IsADirectoryError"
  else if memPath fs.dirs p.dropLast then
    .ok ⟨fs.dirs, setFile fs.files p (.text s)⟩
  else .error "No such file or directory"

/-- `open(p, "r")` followed by reading: yields the text contents, failing on
a missing file or non-text bytes. -/
def readText (fs : FS) (p : Path) : Except String String :=
  match findFile fs.files p with
  | some (.text s) => .ok s
  | some _ => .error "UnicodeDecodeError"
  | none => .error "No such file or directory"

/-- All prefixes of a path, shortest first (including the empty root and the
path itself). -/
def prefixPaths (p : Path) : List Path :=
  (List.range (p.length + 1)).map (fun k => p.take k)

/-- `p.mkdir(parents=True, exist_ok=True)`: creates the whole chain; fails if
any component of the chain already exists as a file. -/
def mkdirParents (fs : FS) (p : Path) : Except String FS :=
  if (prefixPaths p).any (fun q => (findFile fs.files q).isSome) then
    .error "FileExistsError"
  else .ok ⟨fs.dirs ++ prefixPaths p, fs.files⟩

/-- `pickle.load(open(p, "rb"))`: the decoded mapping, or the exception. -/
def pickleLoad (fs : FS) (p : Path) : Except String SourceData :=
  match findFile fs.files p with
  | some (.pickle d) => .ok d
  | some _ => .error "invalid load key"
  | none => .error "No such file or directory"

/-- `json.load` on text: decode the document or raise. -/
def jsonLoad (s : String) : Except String ConversionResult :=
  match parseResult s with
  | some r => .ok r
  | none => .error "JSONDecodeError"

/-! ## The script -/

/-- Path rendering for progress messages (cosmetic). -/
def showPath (p : Path) : String := String.intercalate "/" p

/-- The keys line printed after loading.  The real script prints the Python
list repr of the dict keys in dict order; the model prints the recognized
keys in a canonical order.  The spec marks this reporting as cosmetic. -/
def keysLine (d : SourceData) : String :=
  "Data keys: " ++
    String.intercalate ", "
      ((if d.prototypes.isSome then ["prototypes"] else []) ++
        (if d.class_names.isSome then ["class_names"] else []) ++
        (if d.defect_idx.isSome then ["defect_idx"] else []))

/-- Outcome of `convert_pickle_to_json`: a normal return of `json_data`, or
the caught-exception path that prints the error and calls `sys.exit(1)`. -/
inductive ConvResult where
  | ok : FS → List String → ConversionResult → ConvResult
  | exited : FS → List String → String → ConvResult
  deriving DecidableEq, Repr

/-- The body of `convert_pickle_to_json(pickle_path, json_path)` (source
lines 12-55): load the pickle, normalize, assemble `json_data`, write the
JSON file, then print the shape report — which indexes `prototypes[0]` and
so raises `IndexError` when the normalized table is empty.  Any exception is
caught, reported, and turns into `sys.exit(1)`. -/
def convert_pickle_to_json (fs : FS) (pickle_path json_path : Path) :
    ConvResult :=
  match pickleLoad fs pickle_path with
  | .error e => .exited fs [] e
  | .ok data =>
    let log1 := ["Loaded pickle file: " ++ showPath pickle_path, keysLine data]
    let protos := normalizePrototypes data
    let jd := convertData data
    match writeText fs json_path (renderResultStr jd) with
    | .error e => .exited fs log1 e
    | .ok fs1 =>
      match protos with
      | [] =>
        .exited fs1 (log1 ++ ["\nConverted successfully!"])
          "list index out of range"
      | r0 :: _ =>
        .ok fs1
          (log1 ++
            ["\nConverted successfully!",
              "Prototypes shape: " ++ toString protos.length ++ " x " ++
                toString r0.length,
              "Class names: " ++ String.intercalate ", " jd.class_names,
              "Defect index: " ++ toString jd.defect_idx,
              "\nJSON file written to: " ++ showPath json_path])
          jd

/-- `script_dir.parent / "model" / "prototypes" / "cache" / "prototypes.pkl"`. -/
def picklePath (sd : Path) : Path :=
  sd.dropLast ++ ["model", "prototypes", "cache", "prototypes.pkl"]

/-- `script_dir / "prototypes.json"`, the primary destination. -/
def jsonPath (sd : Path) : Path := sd ++ ["prototypes.json"]

/-- `script_dir.parent / "model" / "prototypes" / "cache" / "prototypes.json"`,
the secondary destination. -/
def modelJsonPath (sd : Path) : Path :=
  sd.dropLast ++ ["model", "prototypes", "cache", "prototypes.json"]

/-- The distinct exit paths of `main` (source lines 57-81). -/
inductive MainOutcome where
  | missingInput : FS → MainOutcome
  | convertExit : FS → List String → String → MainOutcome
  | copyError : FS → List String → String → MainOutcome
  | success : FS → List String → MainOutcome
  deriving DecidableEq, Repr

/-- The steps of `main`, parametrized by the directory containing the script:
existence check on the pickle, conversion (which writes the primary file),
then the secondary copy: `mkdir` the cache directory, re-read the primary
JSON, and re-dump it to the secondary path.  Exceptions in the copy steps are
uncaught. -/
def mainSteps (sd : Path) (fs : FS) : MainOutcome :=
  if pathExists fs (picklePath sd) then
    match convert_pickle_to_json fs (picklePath sd) (jsonPath sd) with
    | .exited fs1 log e => .convertExit fs1 log e
    | .ok fs1 log _jd =>
      match mkdirParents fs1 (modelJsonPath sd).dropLast with
      | .error e => .copyError fs1 log e
      | .ok fs2 =>
        match readText fs2 (jsonPath sd) with
        | .error e => .copyError fs2 log e
        | .ok s =>
          match jsonLoad s with
          | .error e => .copyError fs2 log e
          | .ok jd2 =>
            match writeText fs2 (modelJsonPath sd) (renderResultStr jd2) with
            | .error e => .copyError fs2 log e
            | .ok fs3 =>
              .success fs3
                (log ++ ["\nAlso copied to: " ++ showPath (modelJsonPath sd)])
  else .missingInput fs

/-- Exceptions raised during the convert, primary-write, or copy steps, as
opposed to the up-front missing-input check or a successful run. -/
def raisedDuring : MainOutcome → Option String
  | .convertExit _ _ e => some e
  | .copyError _ _ e => some e
  | _ => none

/-- The observable result of one run: exit status, final filesystem, and the
printed lines. -/
structure RunResult where
  exitCode : Nat
  fs : FS
  log : List String
  deriving DecidableEq, Repr

/-- The whole process: `main` plus the interpreter behavior at each exit path
(status 1 for `sys.exit(1)` and for an uncaught traceback, 0 otherwise). -/
def main (sd : Path) (fs : FS) : RunResult :=
  match mainSteps sd fs with
  | .missingInput fs0 =>
    ⟨1, fs0, ["Error: Pickle file not found: " ++ showPath (picklePath sd)]⟩
  | .convertExit fs1 log e =>
    ⟨1, fs1, log ++ ["Error converting pickle file: " ++ e]⟩
  | .copyError fs1 log e =>
    ⟨1, fs1, log ++ ["Traceback (most recent call last): " ++ e]⟩
  | .success fs1 log => ⟨0, fs1, log⟩

/-- The two write sites (source lines 42-43 and 78-79): serialize the result
with `json.dump(..., indent=2)` to the destination path. -/
def writeJson (fs : FS) (p : Path) (r : ConversionResult) : Except String FS :=
  writeText fs p (renderResultStr r)

/-! ## Lemmas: file table -/

theorem findFile_setFile_self (l : List (Path × FileData)) (p : Path)
    (d : FileData) : findFile (setFile l p d) p = some d := by
  induction l with
  | nil => simp [setFile, findFile]
  | cons hd t ih =>
    obtain ⟨q, e⟩ := hd
    by_cases h : q = p
    · simp [setFile, findFile, h]
    · simp [setFile, findFile, h, ih]

theorem findFile_setFile_ne (l : List (Path × FileData)) (p q : Path)
    (d : FileData) (h : q ≠ p) : findFile (setFile l p d) q = findFile l q := by
  have h' : ¬(p = q) := fun hh => h hh.symm
  induction l with
  | nil => simp [setFile, findFile, h']
  | cons hd t ih =>
    obtain ⟨a, e⟩ := hd
    by_cases ha : a = p
    · subst ha
      simp [setFile, findFile, h']
    · simp [setFile, findFile, ha, ih]

theorem memPath_iff (l : List Path) (p : Path) : memPath l p = true ↔ p ∈ l := by
  induction l with
  | nil => simp [memPath]
  | cons q t ih =>
    by_cases h : q = p
    · simp [memPath, h]
    · have h' : ¬(p = q) := fun hh => h hh.symm
      simp [memPath, h, ih, h']

theorem writeText_ok (fs : FS) (p : Path) (s : String) (fs' : FS)
    (h : writeText fs p s = .ok fs') :
    fs'.dirs = fs.dirs ∧ fs'.files = setFile fs.files p (.text s) := by
  unfold writeText at h
  split at h
  · simp at h
  · split at h
    · injection h with h2
      subst h2
      exact ⟨rfl, rfl⟩
    · simp at h

theorem mkdirParents_ok (fs : FS) (p : Path) (fs' : FS)
    (h : mkdirParents fs p = .ok fs') : fs'.files = fs.files := by
  unfold mkdirParents at h
  split at h
  · simp at h
  · injection h with h2
    subst h2
    rfl

/-! ## Lemmas: decimal digits -/

theorem digitChar_facts : ∀ n, n < 10 →
    (digitChar n).isDigit = true ∧ (digitChar n).toNat = 48 + n ∧
      isWs (digitChar n) = false := by decide

theorem natDigitsAux_eq (n : Nat) : ∀ fuel ds, n ≤ fuel →
    natDigitsAux fuel n ds = digitsOf n ++ ds := by
  induction n using Nat.strong_induction_on with
  | _ n ih =>
    intro fuel ds hle
    match fuel with
    | 0 =>
      have h0 : n = 0 := by omega
      subst h0
      simp [natDigitsAux, digitsOf]
    | fuel + 1 =>
      by_cases h0 : n = 0
      · subst h0
        simp [natDigitsAux, digitsOf]
      · have hpos : 0 < n := Nat.pos_of_ne_zero h0
        have hdiv : n / 10 < n := Nat.div_lt_self hpos (by norm_num)
        have step : natDigitsAux (fuel + 1) n ds =
            natDigitsAux fuel (n / 10) (digitChar (n % 10) :: ds) := by
          simp [natDigitsAux, h0]
        rw [step, ih (n / 10) hdiv fuel (digitChar (n % 10) :: ds) (by omega)]
        have step2 : natDigitsAux n n [] =
            natDigitsAux (n - 1) (n / 10) (digitChar (n % 10) :: []) := by
          match n, h0 with
          | m + 1, _ => simp [natDigitsAux]
        have hform : digitsOf n = digitsOf (n / 10) ++ [digitChar (n % 10)] :=
          calc digitsOf n = natDigitsAux n n [] := rfl
            _ = natDigitsAux (n - 1) (n / 10) [digitChar (n % 10)] := step2
            _ = digitsOf (n / 10) ++ [digitChar (n % 10)] :=
                ih (n / 10) hdiv (n - 1) [digitChar (n % 10)] (by omega)
        rw [hform, List.append_assoc]
        rfl

theorem digitsOf_succ (n : Nat) (h : n ≠ 0) :
    digitsOf n = digitsOf (n / 10) ++ [digitChar (n % 10)] := by
  have step2 : natDigitsAux n n [] =
      natDigitsAux (n - 1) (n / 10) (digitChar (n % 10) :: []) := by
    match n, h with
    | m + 1, _ => simp [natDigitsAux]
  calc digitsOf n = natDigitsAux n n [] := rfl
    _ = natDigitsAux (n - 1) (n / 10) [digitChar (n % 10)] := step2
    _ = digitsOf (n / 10) ++ [digitChar (n % 10)] :=
        natDigitsAux_eq (n / 10) (n - 1) [digitChar (n % 10)] (by omega)

theorem digitsOf_all_digit (n : Nat) :
    ∀ c ∈ digitsOf n, c.isDigit = true ∧ isWs c = false := by
  induction n using Nat.strong_induction_on with
  | _ n ih =>
    by_cases h0 : n = 0
    · subst h0
      simp [digitsOf, natDigitsAux]
    · have hpos : 0 < n := Nat.pos_of_ne_zero h0
      have hdiv : n / 10 < n := Nat.div_lt_self hpos (by norm_num)
      rw [digitsOf_succ n h0]
      intro c hc
      rcases List.mem_append.mp hc with hl | hr
      · exact ih (n / 10) hdiv c hl
      · have hd := digitChar_facts (n % 10) (Nat.mod_lt n (by norm_num))
        simp at hr
        subst hr
        exact ⟨hd.1, hd.2.2⟩

theorem digitsOf_ne_nil (n : Nat) (h : n ≠ 0) : digitsOf n ≠ [] := by
  rw [digitsOf_succ n h]
  simp

/-- Positional value of a digit-character run, onto accumulator `acc`. -/
def dval (acc : Nat) (l : List Char) : Nat :=
  l.foldl (fun a c => a * 10 + (c.toNat - 48)) acc

theorem dval_nil (acc : Nat) : dval acc [] = acc := rfl

theorem dval_cons (acc : Nat) (c : Char) (l : List Char) :
    dval acc (c :: l) = dval (acc * 10 + (c.toNat - 48)) l := rfl

theorem dval_append (acc : Nat) (l1 l2 : List Char) :
    dval acc (l1 ++ l2) = dval (dval acc l1) l2 := by
  simp [dval]

theorem dval_digitsOf (n : Nat) : ∀ acc,
    dval acc (digitsOf n) = acc * 10 ^ (digitsOf n).length + n := by
  induction n using Nat.strong_induction_on with
  | _ n ih =>
    intro acc
    by_cases h0 : n = 0
    · subst h0
      simp [digitsOf, natDigitsAux, dval]
    · have hpos : 0 < n := Nat.pos_of_ne_zero h0
      have hdiv : n / 10 < n := Nat.div_lt_self hpos (by norm_num)
      rw [digitsOf_succ n h0, dval_append, ih (n / 10) hdiv acc, dval_cons,
        dval_nil]
      have hchar : (digitChar (n % 10)).toNat = 48 + n % 10 :=
        (digitChar_facts (n % 10) (Nat.mod_lt n (by norm_num))).2.1
      rw [hchar, List.length_append, List.length_singleton, pow_succ,
        ← Nat.mul_assoc]
      generalize acc * 10 ^ (digitsOf (n / 10)).length = A
      omega

theorem parseDigitsAux_spec (ds : List Char) : ∀ acc rest,
    (∀ c ∈ ds, c.isDigit = true) →
    (∀ c t, rest = c :: t → c.isDigit = false) →
    parseDigitsAux acc (ds ++ rest) = (dval acc ds, rest) := by
  induction ds with
  | nil =>
    intro acc rest _ hrest
    match rest with
    | [] => rfl
    | c :: t =>
      simp only [List.nil_append, parseDigitsAux, hrest c t rfl]
      rfl
  | cons d ds ih =>
    intro acc rest hall hrest
    have hd : d.isDigit = true := hall d (by simp)
    simp only [List.cons_append, parseDigitsAux, hd, if_true, dval_cons]
    exact ih _ rest (fun c hc => hall c (by simp [hc])) hrest

theorem natDigits_all (n : Nat) :
    ∀ c ∈ natDigits n, c.isDigit = true ∧ isWs c = false := by
  unfold natDigits
  by_cases h0 : n = 0
  · subst h0
    intro c hc
    simp at hc
    subst hc
    exact ⟨rfl, rfl⟩
  · simp only [h0, if_false]
    exact digitsOf_all_digit n

theorem natDigits_parse (n : Nat) (rest : List Char)
    (hrest : ∀ c t, rest = c :: t → c.isDigit = false) :
    parseDigitsAux 0 (natDigits n ++ rest) = (n, rest) := by
  have hall : ∀ c ∈ natDigits n, c.isDigit = true :=
    fun c hc => (natDigits_all n c hc).1
  rw [parseDigitsAux_spec (natDigits n) 0 rest hall hrest]
  by_cases h0 : n = 0
  · subst h0
    rw [show dval 0 (natDigits 0) = 0 from rfl]
  · rw [show natDigits n = digitsOf n by simp [natDigits, h0],
      dval_digitsOf n 0]
    simp

theorem natDigits_head (n : Nat) :
    ∃ c t, natDigits n = c :: t ∧ c.isDigit = true ∧ isWs c = false := by
  match hh : natDigits n with
  | [] =>
    exfalso
    unfold natDigits at hh
    by_cases h0 : n = 0
    · simp [h0] at hh
    · simp [h0] at hh
      exact digitsOf_ne_nil n h0 hh
  | c :: t =>
    have := natDigits_all n c (by rw [hh]; simp)
    exact ⟨c, t, rfl, this.1, this.2⟩

/-! ## Lemmas: number parsing round trip -/

/-- What may legally follow a rendered number for the parser to stop exactly
at its end. -/
def numBoundary (rest : List Char) : Prop :=
  ∀ c t, rest = c :: t → c.isDigit = false ∧ c ≠ '.'

theorem parseNumPos_int (m : Nat) (rest : List Char) (hb : numBoundary rest) :
    parseNumPos (natDigits m ++ rest) = some (.int (m : Int), rest) := by
  obtain ⟨c, t, hct, hdig, _⟩ := natDigits_head m
  have hparse := natDigits_parse m rest (fun c t h => (hb c t h).1)
  rw [hct] at hparse ⊢
  simp only [List.cons_append]
  simp only [parseNumPos, hdig, if_true]
  rw [show c :: (t ++ rest) = (c :: t) ++ rest from rfl, hparse]
  match rest, hb with
  | [], _ => rfl
  | c2 :: t2, hb =>
    have hc2 : ¬(c2 = '.') := (hb c2 t2 rfl).2
    simp [hc2]

theorem parseNumPos_float (m : Nat) (rest : List Char) (hb : numBoundary rest) :
    parseNumPos (natDigits m ++ ('.' :: '0' :: rest)) =
      some (.float (m : Int), rest) := by
  obtain ⟨c, t, hct, hdig, _⟩ := natDigits_head m
  have hdot : ∀ c t, ('.' :: '0' :: rest : List Char) = c :: t →
      c.isDigit = false := by
    intro c t h
    cases h
    rfl
  have hparse := natDigits_parse m ('.' :: '0' :: rest) hdot
  have hz : parseDigitsAux 0 ('0' :: rest) = (0, rest) := by
    have h1 := parseDigitsAux_spec ['0'] 0 rest (by decide)
      (fun c t h => (hb c t h).1)
    rw [show dval 0 ['0'] = 0 from rfl] at h1
    simpa using h1
  rw [hct] at hparse ⊢
  simp only [List.cons_append]
  simp only [parseNumPos, hdig, if_true]
  rw [show c :: (t ++ ('.' :: '0' :: rest)) = (c :: t) ++ ('.' :: '0' :: rest)
    from rfl, hparse]
  simp [hz]

theorem isDigit_ne_dash {c : Char} (h : c.isDigit = true) : ¬(c = '-') := by
  intro heq
  subst heq
  simp at h

theorem parseNum_render (n : PyNum) (rest : List Char) (hb : numBoundary rest) :
    parseNum (renderNumL n ++ rest) = some (n, rest) := by
  match n with
  | .int i =>
    by_cases hi : i < 0
    · simp only [renderNumL, renderIntL, hi, if_true, List.cons_append]
      have h1 := parseNumPos_int i.natAbs rest hb
      simp [parseNum, h1, pyNegate]
      rw [abs_of_neg hi, neg_neg]
    · simp only [renderNumL, renderIntL, hi, if_false]
      obtain ⟨c, t, hct, hdig, _⟩ := natDigits_head i.natAbs
      rw [hct]
      simp only [List.cons_append]
      simp only [parseNum, isDigit_ne_dash hdig, if_false]
      rw [show c :: (t ++ rest) = (c :: t) ++ rest from rfl, ← hct,
        parseNumPos_int i.natAbs rest hb]
      rw [Int.natAbs_of_nonneg (by omega)]
  | .float i =>
    by_cases hi : i < 0
    · simp only [renderNumL, renderIntL, hi, if_true, List.cons_append,
        List.append_assoc, List.nil_append]
      have h1 := parseNumPos_float i.natAbs rest hb
      simp only [List.cons_append, List.nil_append] at h1 ⊢
      simp [parseNum, h1, pyNegate]
      rw [abs_of_neg hi, neg_neg]
    · simp only [renderNumL, renderIntL, hi, if_false, List.append_assoc,
        List.nil_append]
      obtain ⟨c, t, hct, hdig, _⟩ := natDigits_head i.natAbs
      rw [hct]
      simp only [List.cons_append, List.nil_append]
      simp only [parseNum, isDigit_ne_dash hdig, if_false]
      rw [show c :: (t ++ ('.' :: '0' :: rest)) =
        (c :: t) ++ ('.' :: '0' :: rest) from rfl, ← hct,
        parseNumPos_float i.natAbs rest hb]
      rw [Int.natAbs_of_nonneg (by omega)]

/-! ## Lemmas: whitespace -/

theorem skipWs_cons_ws {c : Char} (h : isWs c = true) (cs : List Char) :
    skipWs (c :: cs) = skipWs cs := by
  simp [skipWs, h]

theorem skipWs_cons_not {c : Char} (h : isWs c = false) (cs : List Char) :
    skipWs (c :: cs) = c :: cs := by
  simp [skipWs, h]

theorem skipWs_ws_append {ws : List Char} (h : ws.all isWs = true)
    (cs : List Char) : skipWs (ws ++ cs) = skipWs cs := by
  induction ws with
  | nil => rfl
  | cons c t ih =>
    simp only [List.all_cons, Bool.and_eq_true] at h
    simp only [List.cons_append, skipWs_cons_ws h.1]
    exact ih h.2

theorem indChars_all_ws (k : Nat) : (indChars k).all isWs = true := by
  simp only [indChars, List.all_eq_true]
  intro c hc
  rw [List.eq_of_mem_replicate hc]
  rfl

theorem all_ws_append {a b : List Char} (ha : a.all isWs = true)
    (hb : b.all isWs = true) : (a ++ b).all isWs = true := by
  simp [List.all_append, ha, hb]

/-! ## Lemmas: string escaping round trip -/

theorem char_valid_range (c : Char) :
    c.toNat < 55296 ∨ (57343 < c.toNat ∧ c.toNat < 1114112) := by
  have h := c.valid
  unfold UInt32.isValidChar Nat.isValidChar at h
  exact h

theorem hexVal_hexDigit : ∀ m, m < 16 → hexVal (hexDigit m) = some m := by
  decide

theorem hex4Val_hex4 (n : Nat) (h : n < 65536) :
    hex4Val (hexDigit (n / 4096 % 16)) (hexDigit (n / 256 % 16))
      (hexDigit (n / 16 % 16)) (hexDigit (n % 16)) = some n := by
  unfold hex4Val
  rw [hexVal_hexDigit _ (by omega), hexVal_hexDigit _ (by omega),
    hexVal_hexDigit _ (by omega), hexVal_hexDigit _ (by omega)]
  simp
  omega

theorem escapeCharL_length (c : Char) : 1 ≤ (escapeCharL c).length := by
  unfold escapeCharL uEscape
  split_ifs <;> simp

theorem escapeList_length_ge (l : List Char) :
    l.length ≤ (escapeList l).length := by
  induction l with
  | nil => simp [escapeList]
  | cons c t ih =>
    simp only [escapeList, List.length_append, List.length_cons]
    have := escapeCharL_length c
    omega

/-- One parser step on a `\uXXXX` escape head, by definitional unfolding. -/
theorem parseStrBodyF_u_step (f : Nat) (a b c1 d : Char) (Z : List Char) :
    parseStrBodyF (f + 1) ('\\' :: 'u' :: a :: b :: c1 :: d :: Z) =
      (match hex4Val a b c1 d with
       | none => none
       | some n =>
         if 55296 ≤ n ∧ n < 56320 then
           (match Z with
            | '\\' :: 'u' :: a2 :: b2 :: c2 :: d2 :: cs'' =>
              (match hex4Val a2 b2 c2 d2 with
               | none => none
               | some m =>
                 if 56320 ≤ m ∧ m < 57344 then
                   (match parseStrBodyF f cs'' with
                    | some (s, r) =>
                      some (Char.ofNat (65536 + 1024 * (n - 55296) + (m - 56320)) :: s, r)
                    | none => none)
                 else none)
            | _ => none)
         else if 56320 ≤ n ∧ n < 57344 then none
         else
           (match parseStrBodyF f Z with
            | some (s, r) => some (Char.ofNat n :: s, r)
            | none => none)) := rfl

theorem parseStrBodyF_escape (l : List Char) : ∀ fuel rest,
    l.length + 1 ≤ fuel →
    parseStrBodyF fuel (escapeList l ++ '\"' :: rest) = some (l, rest) := by
  induction l with
  | nil =>
    intro fuel rest hf
    match fuel, hf with
    | f + 1, _ => simp [escapeList, parseStrBodyF]
  | cons c t ih =>
    intro fuel rest hf
    match fuel, hf with
    | f + 1, hf =>
      have hrec : parseStrBodyF f (escapeList t ++ '\"' :: rest) =
          some (t, rest) := by
        apply ih
        simp only [List.length_cons] at hf
        omega
      simp only [escapeList, List.append_assoc]
      generalize hZ : escapeList t ++ '\"' :: rest = Z at hrec ⊢
      by_cases h1 : c = '\"'
      · subst h1
        rw [show escapeCharL '\"' ++ Z = '\\' :: '\"' :: Z from rfl]
        rw [show parseStrBodyF (f + 1) ('\\' :: '\"' :: Z) =
            (match parseStrBodyF f Z with
             | some (s, r) => some ('\"' :: s, r)
             | none => none) from rfl, hrec]
      · by_cases h2 : c = '\\'
        · subst h2
          rw [show escapeCharL '\\' ++ Z = '\\' :: '\\' :: Z from rfl]
          rw [show parseStrBodyF (f + 1) ('\\' :: '\\' :: Z) =
              (match parseStrBodyF f Z with
               | some (s, r) => some ('\\' :: s, r)
               | none => none) from rfl, hrec]
        · by_cases h3 : c = '\n'
          · subst h3
            rw [show escapeCharL '\n' ++ Z = '\\' :: 'n' :: Z from rfl]
            rw [show parseStrBodyF (f + 1) ('\\' :: 'n' :: Z) =
                (match parseStrBodyF f Z with
                 | some (s, r) => some ('\n' :: s, r)
                 | none => none) from rfl, hrec]
          · by_cases h4 : c = '\r'
            · subst h4
              rw [show escapeCharL '\r' ++ Z = '\\' :: 'r' :: Z from rfl]
              rw [show parseStrBodyF (f + 1) ('\\' :: 'r' :: Z) =
                  (match parseStrBodyF f Z with
                   | some (s, r) => some ('\r' :: s, r)
                   | none => none) from rfl, hrec]
            · by_cases h5 : c = '\t'
              · subst h5
                rw [show escapeCharL '\t' ++ Z = '\\' :: 't' :: Z from rfl]
                rw [show parseStrBodyF (f + 1) ('\\' :: 't' :: Z) =
                    (match parseStrBodyF f Z with
                     | some (s, r) => some ('\t' :: s, r)
                     | none => none) from rfl, hrec]
              · by_cases h6 : c.toNat = 8
                · have hc : c = Char.ofNat 8 := by
                    rw [← Char.ofNat_toNat c, h6]
                  subst hc
                  rw [show escapeCharL (Char.ofNat 8) ++ Z = '\\' :: 'b' :: Z
                    from rfl]
                  rw [show parseStrBodyF (f + 1) ('\\' :: 'b' :: Z) =
                      (match parseStrBodyF f Z with
                       | some (s, r) => some (Char.ofNat 8 :: s, r)
                       | none => none) from rfl, hrec]
                · by_cases h7 : c.toNat = 12
                  · have hc : c = Char.ofNat 12 := by
                      rw [← Char.ofNat_toNat c, h7]
                    subst hc
                    rw [show escapeCharL (Char.ofNat 12) ++ Z = '\\' :: 'f' :: Z
                      from rfl]
                    rw [show parseStrBodyF (f + 1) ('\\' :: 'f' :: Z) =
                        (match parseStrBodyF f Z with
                         | some (s, r) => some (Char.ofNat 12 :: s, r)
                         | none => none) from rfl, hrec]
                  · by_cases h8 : c.toNat < 32 ∨ c.toNat > 126
                    · rw [show escapeCharL c = uEscape c by
                        simp [escapeCharL, h1, h2, h3, h4, h5, h6, h7, h8]]
                      have hvr := char_valid_range c
                      by_cases hlt : c.toNat < 65536
                      · -- basic-plane character
                        have hx := hex4Val_hex4 c.toNat hlt
                        have hno1 : ¬(55296 ≤ c.toNat ∧ c.toNat < 56320) := by
                          omega
                        have hno2 : ¬(56320 ≤ c.toNat ∧ c.toNat < 57344) := by
                          omega
                        rw [show uEscape c ++ Z =
                            '\\' :: 'u' :: hexDigit (c.toNat / 4096 % 16) ::
                              hexDigit (c.toNat / 256 % 16) ::
                                hexDigit (c.toNat / 16 % 16) ::
                                  hexDigit (c.toNat % 16) :: Z by
                          rw [show uEscape c = '\\' :: 'u' :: hex4 c.toNat by
                            simp [uEscape, hlt]]
                          simp [hex4]]
                        rw [parseStrBodyF_u_step, hx]
                        simp only [if_neg hno1, if_neg hno2, hrec,
                          Char.ofNat_toNat]
                      · -- astral character: surrogate pair
                        have hub : c.toNat < 1114112 := by omega
                        have hmod : (c.toNat - 65536) % 1024 < 1024 :=
                          Nat.mod_lt _ (by norm_num)
                        have hhi : 55296 + (c.toNat - 65536) / 1024 < 65536 := by
                          omega
                        have hlo : 56320 + (c.toNat - 65536) % 1024 < 65536 := by
                          omega
                        have hx1 := hex4Val_hex4 _ hhi
                        have hx2 := hex4Val_hex4 _ hlo
                        rw [show uEscape c ++ Z =
                            '\\' :: 'u' ::
                              hexDigit ((55296 + (c.toNat - 65536) / 1024) / 4096 % 16) ::
                                hexDigit ((55296 + (c.toNat - 65536) / 1024) / 256 % 16) ::
                                  hexDigit ((55296 + (c.toNat - 65536) / 1024) / 16 % 16) ::
                                    hexDigit ((55296 + (c.toNat - 65536) / 1024) % 16) ::
                              ('\\' :: 'u' ::
                                hexDigit ((56320 + (c.toNat - 65536) % 1024) / 4096 % 16) ::
                                  hexDigit ((56320 + (c.toNat - 65536) % 1024) / 256 % 16) ::
                                    hexDigit ((56320 + (c.toNat - 65536) % 1024) / 16 % 16) ::
                                      hexDigit ((56320 + (c.toNat - 65536) % 1024) % 16) :: Z) by
                          rw [show uEscape c =
                              ('\\' :: 'u' :: hex4 (55296 + (c.toNat - 65536) / 1024)) ++
                                ('\\' :: 'u' :: hex4 (56320 + (c.toNat - 65536) % 1024)) by
                            rw [uEscape, if_neg (by omega)]]
                          simp [hex4]]
                        rw [parseStrBodyF_u_step, hx1]
                        simp only [if_pos (show
                          55296 ≤ 55296 + (c.toNat - 65536) / 1024 ∧
                            55296 + (c.toNat - 65536) / 1024 < 56320 from
                          ⟨by omega, by omega⟩)]
                        rw [hx2]
                        simp only [if_pos (show
                          56320 ≤ 56320 + (c.toNat - 65536) % 1024 ∧
                            56320 + (c.toNat - 65536) % 1024 < 57344 from
                          ⟨by omega, by omega⟩)]
                        rw [hrec]
                        have harith :
                            65536 +
                              1024 * (55296 + (c.toNat - 65536) / 1024 - 55296) +
                              (56320 + (c.toNat - 65536) % 1024 - 56320) = c.toNat := by
                          have := Nat.div_add_mod (c.toNat - 65536) 1024
                          omega
                        rw [harith, Char.ofNat_toNat]
                    · -- printable ASCII other than quote and backslash
                      rw [show escapeCharL c = [c] by
                        simp [escapeCharL, h1, h2, h3, h4, h5, h6, h7, h8]]
                      simp only [List.cons_append, List.nil_append]
                      simp only [parseStrBodyF]
                      rw [if_neg h1, if_neg h2, hrec]

theorem parseStrBody_escape (l : List Char) (rest : List Char) :
    parseStrBody (escapeList l ++ '\"' :: rest) = some (l, rest) := by
  unfold parseStrBody
  apply parseStrBodyF_escape
  have := escapeList_length_ge l
  simp only [List.length_append, List.length_cons]
  omega

theorem mk_data_eq (s : String) : String.mk s.data = s := by
  cases s
  rfl

theorem parseString_render (s : String) (rest : List Char) :
    parseString (renderStringL s ++ rest) = some (s, rest) := by
  unfold renderStringL
  simp only [List.cons_append, List.append_assoc, List.singleton_append,
    List.nil_append]
  have hb := parseStrBody_escape s.data rest
  simp [parseString, hb, mk_data_eq]

/-! ## Lemmas: array parsing round trip -/

/-- What may follow an array item inside a rendered array body. -/
def itemBoundary (rest : List Char) : Prop :=
  (∃ t, rest = ',' :: t) ∨ (∃ t, rest = '\n' :: t)

theorem itemBoundary_num (rest : List Char) (h : itemBoundary rest) :
    numBoundary rest := by
  rcases h with ⟨t, h⟩ | ⟨t, h⟩ <;> subst h <;> intro c t' hh <;> cases hh <;>
    exact ⟨by decide, by decide⟩

theorem parseItems_render {α : Type} (p : List Char → Option (α × List Char))
    (f : α → List Char) (pre : List Char) (k : Nat)
    (hpre : pre.all isWs = true)
    (hp : ∀ x ws rest, ws.all isWs = true → itemBoundary rest →
      p (ws ++ (f x ++ rest)) = some (x, rest)) :
    ∀ (l : List α) (ws rest : List Char) (fuel : Nat), ws.all isWs = true →
      l ≠ [] → l.length ≤ fuel →
      parseItems p fuel
        (ws ++ (renderItemsWith pre f l ++
          ('\n' :: (indChars k ++ (']' :: rest))))) = some (l, rest) := by
  intro l
  induction l with
  | nil =>
    intro ws rest fuel _ hne _
    exact absurd rfl hne
  | cons x l' ih =>
    intro ws rest fuel hws _ hfuel
    cases fuel with
    | zero =>
      simp only [List.length_cons] at hfuel
      omega
    | succ fu =>
      match l' with
      | [] =>
        simp only [renderItemsWith, List.append_assoc]
        have happ := hp x (ws ++ pre) ('\n' :: (indChars k ++ (']' :: rest)))
          (all_ws_append hws hpre) (Or.inr ⟨_, rfl⟩)
        rw [show ws ++ (pre ++ (f x ++ ('\n' :: (indChars k ++ (']' :: rest))))) =
            (ws ++ pre) ++ (f x ++ ('\n' :: (indChars k ++ (']' :: rest)))) by
          simp [List.append_assoc]]
        simp only [parseItems]
        rw [happ]
        have hskip : skipWs ('\n' :: (indChars k ++ (']' :: rest))) =
            ']' :: rest := by
          rw [skipWs_cons_ws (by decide), skipWs_ws_append (indChars_all_ws k),
            skipWs_cons_not (by decide)]
        simp [hskip]
      | y :: t' =>
        simp only [renderItemsWith, List.append_assoc, List.cons_append,
          List.nil_append]
        have happ := hp x (ws ++ pre)
          (',' :: '\n' :: (renderItemsWith pre f (y :: t') ++
            ('\n' :: (indChars k ++ (']' :: rest)))))
          (all_ws_append hws hpre) (Or.inl ⟨_, rfl⟩)
        rw [show ws ++ (pre ++ (f x ++ (',' :: '\n' ::
            (renderItemsWith pre f (y :: t') ++
              ('\n' :: (indChars k ++ (']' :: rest))))))) =
            (ws ++ pre) ++ (f x ++ (',' :: '\n' ::
            (renderItemsWith pre f (y :: t') ++
              ('\n' :: (indChars k ++ (']' :: rest)))))) by
          simp [List.append_assoc]]
        simp only [parseItems]
        rw [happ]
        have hrec := ih ['\n'] rest fu (by decide) (by simp)
          (by simp only [List.length_cons] at hfuel ⊢; omega)
        simp only [List.singleton_append] at hrec
        have hskip : skipWs (',' :: '\n' ::
            (renderItemsWith pre f (y :: t') ++
              ('\n' :: (indChars k ++ (']' :: rest))))) =
            ',' :: '\n' :: (renderItemsWith pre f (y :: t') ++
              ('\n' :: (indChars k ++ (']' :: rest)))) :=
          skipWs_cons_not (by decide) _
        simp [hskip, hrec]

theorem renderItemsWith_length {α : Type} (f : α → List Char)
    (pre : List Char) (hf : ∀ x, f x ≠ []) :
    ∀ l : List α, l.length ≤ (renderItemsWith pre f l).length := by
  intro l
  induction l with
  | nil => simp [renderItemsWith]
  | cons x l' ih =>
    match l' with
    | [] =>
      simp only [renderItemsWith, List.length_append, List.length_cons,
        List.length_nil]
      have : 1 ≤ (f x).length := by
        match hx : f x with
        | [] => exact absurd hx (hf x)
        | c :: cs => simp
      omega
    | y :: t' =>
      simp only [renderItemsWith, List.length_append, List.length_cons] at ih ⊢
      omega

theorem parseArr_step_nil {α : Type} (p : List Char → Option (α × List Char))
    (cs0 cs cs1 : List Char)
    (h0 : skipWs cs0 = '[' :: cs) (h1 : skipWs cs = ']' :: cs1) :
    parseArr p cs0 = some ([], cs1) := by
  unfold parseArr
  rw [h0]
  show (match skipWs cs with
        | [] => none
        | c :: cs2 =>
          if c = ']' then some ([], cs2) else parseItems p (cs.length + 1) cs) =
      some ([], cs1)
  rw [h1]
  show (if (']' : Char) = ']' then some ([], cs1)
        else parseItems p (cs.length + 1) cs) = some ([], cs1)
  simp

theorem parseArr_step_items {α : Type} (p : List Char → Option (α × List Char))
    (cs0 cs cs' : List Char) (c : Char)
    (h0 : skipWs cs0 = '[' :: cs) (h1 : skipWs cs = c :: cs')
    (hc : ¬(c = ']')) :
    parseArr p cs0 = parseItems p (cs.length + 1) cs := by
  unfold parseArr
  rw [h0]
  show (match skipWs cs with
        | [] => none
        | c2 :: cs2 =>
          if c2 = ']' then some ([], cs2) else parseItems p (cs.length + 1) cs) =
      parseItems p (cs.length + 1) cs
  rw [h1]
  show (if c = ']' then some ([], cs')
        else parseItems p (cs.length + 1) cs) = parseItems p (cs.length + 1) cs
  rw [if_neg hc]

theorem parseArr_render {α : Type} (p : List Char → Option (α × List Char))
    (f : α → List Char) (k : Nat)
    (hp : ∀ x ws rest, ws.all isWs = true → itemBoundary rest →
      p (ws ++ (f x ++ rest)) = some (x, rest))
    (hf : ∀ x, ∃ c cs, f x = c :: cs ∧ isWs c = false ∧ ¬(c = ']')) :
    ∀ (l : List α) (ws rest : List Char), ws.all isWs = true →
      parseArr p (ws ++ (renderArrWith k f l ++ rest)) = some (l, rest) := by
  intro l ws rest hws
  match l with
  | [] =>
    rw [show renderArrWith k f ([] : List α) = ['[', ']'] from rfl]
    rw [show (['[', ']'] : List Char) ++ rest = '[' :: (']' :: rest) from rfl]
    exact parseArr_step_nil p _ (']' :: rest) rest
      (by rw [skipWs_ws_append hws, skipWs_cons_not (by decide)])
      (skipWs_cons_not (by decide) _)
  | x :: t =>
    obtain ⟨c0, cs0, hfx, hc0ws, hc0br⟩ := hf x
    rw [show renderArrWith k f (x :: t) =
        '[' :: '\n' :: (renderItemsWith (indChars (k + 1)) f (x :: t) ++
          ('\n' :: (indChars k ++ [']']))) from rfl]
    simp only [List.cons_append, List.append_assoc, List.singleton_append,
      List.nil_append]
    have h0 : skipWs (ws ++ ('[' :: '\n' ::
        (renderItemsWith (indChars (k + 1)) f (x :: t) ++
          ('\n' :: (indChars k ++ (']' :: rest)))))) =
        '[' :: ('\n' :: (renderItemsWith (indChars (k + 1)) f (x :: t) ++
          ('\n' :: (indChars k ++ (']' :: rest))))) := by
      rw [skipWs_ws_append hws, skipWs_cons_not (by decide)]
    have hhead : ∃ junk, skipWs ('\n' ::
        (renderItemsWith (indChars (k + 1)) f (x :: t) ++
          ('\n' :: (indChars k ++ (']' :: rest))))) = c0 :: junk := by
      rw [skipWs_cons_ws (by decide)]
      match t with
      | [] =>
        rw [show renderItemsWith (indChars (k + 1)) f [x] =
            indChars (k + 1) ++ f x from rfl]
        rw [List.append_assoc, skipWs_ws_append (indChars_all_ws (k + 1)),
          hfx, List.cons_append, skipWs_cons_not hc0ws]
        exact ⟨_, rfl⟩
      | y :: t2 =>
        rw [show renderItemsWith (indChars (k + 1)) f (x :: y :: t2) =
            indChars (k + 1) ++ (f x ++ (',' :: '\n' ::
              renderItemsWith (indChars (k + 1)) f (y :: t2))) from rfl]
        simp only [List.append_assoc]
        rw [skipWs_ws_append (indChars_all_ws (k + 1)), hfx,
          List.cons_append, skipWs_cons_not hc0ws]
        exact ⟨_, rfl⟩
    obtain ⟨junk, hj⟩ := hhead
    rw [parseArr_step_items p _ _ junk c0 h0 hj hc0br]
    have hlen := renderItemsWith_length f (indChars (k + 1))
      (fun z => by
        obtain ⟨c, cs, hz, _, _⟩ := hf z
        rw [hz]
        simp) (x :: t)
    simp only [List.length_cons] at hlen
    have hfin := parseItems_render p f (indChars (k + 1)) k
      (indChars_all_ws (k + 1)) hp (x :: t) ['\n'] rest
      (('\n' :: (renderItemsWith (indChars (k + 1)) f (x :: t) ++
        ('\n' :: (indChars k ++ (']' :: rest))))).length + 1)
      (by decide) (by simp)
      (by
        simp only [List.length_cons, List.length_append]
        omega)
    simpa using hfin

/-! ## Lemmas: element parsers and the document round trip -/

theorem isDigit_ne_rbracket {c : Char} (h : c.isDigit = true) : ¬(c = ']') := by
  intro heq
  subst heq
  exact absurd h (by decide)

theorem renderNumL_head (n : PyNum) :
    ∃ c cs, renderNumL n = c :: cs ∧ isWs c = false ∧ ¬(c = ']') := by
  match n with
  | .int i =>
    by_cases hi : i < 0
    · exact ⟨'-', natDigits i.natAbs,
        by simp [renderNumL, renderIntL, hi], by decide, by decide⟩
    · obtain ⟨c, t, hct, hdig, hws⟩ := natDigits_head i.natAbs
      exact ⟨c, t, by simp [renderNumL, renderIntL, hi, hct], hws,
        isDigit_ne_rbracket hdig⟩
  | .float i =>
    by_cases hi : i < 0
    · exact ⟨'-', natDigits i.natAbs ++ ['.', '0'],
        by simp [renderNumL, renderIntL, hi], by decide, by decide⟩
    · obtain ⟨c, t, hct, hdig, hws⟩ := natDigits_head i.natAbs
      exact ⟨c, t ++ ['.', '0'], by simp [renderNumL, renderIntL, hi, hct],
        hws, isDigit_ne_rbracket hdig⟩

theorem parseNumWs_item (n : PyNum) (ws rest : List Char)
    (hws : ws.all isWs = true) (hbd : itemBoundary rest) :
    parseNumWs (ws ++ (renderNumL n ++ rest)) = some (n, rest) := by
  unfold parseNumWs
  rw [skipWs_ws_append hws]
  obtain ⟨c, cs, hct, hcws, _⟩ := renderNumL_head n
  rw [hct, List.cons_append, skipWs_cons_not hcws, ← List.cons_append, ← hct]
  exact parseNum_render n rest (itemBoundary_num rest hbd)

theorem parseStringWs_item (s : String) (ws rest : List Char)
    (hws : ws.all isWs = true) :
    parseStringWs (ws ++ (renderStringL s ++ rest)) = some (s, rest) := by
  unfold parseStringWs
  rw [skipWs_ws_append hws]
  rw [show renderStringL s ++ rest =
    '\"' :: ((escapeList s.data ++ ['\"']) ++ rest) from rfl]
  rw [skipWs_cons_not (by decide)]
  rw [show '\"' :: ((escapeList s.data ++ ['\"']) ++ rest) =
    renderStringL s ++ rest from rfl]
  exact parseString_render s rest

theorem renderRow_head (row : List PyNum) :
    ∃ c cs, renderArrWith 2 renderNumL row = c :: cs ∧ isWs c = false ∧
      ¬(c = ']') := by
  match row with
  | [] => exact ⟨'[', [']'], rfl, by decide, by decide⟩
  | x :: t => exact ⟨'[', _, rfl, by decide, by decide⟩

theorem parseRow_item (row : List PyNum) (ws rest : List Char)
    (hws : ws.all isWs = true) :
    parseArr parseNumWs (ws ++ (renderArrWith 2 renderNumL row ++ rest)) =
      some (row, rest) :=
  parseArr_render parseNumWs renderNumL 2
    (fun x ws2 r2 h1 h2 => parseNumWs_item x ws2 r2 h1 h2)
    renderNumL_head row ws rest hws

theorem parseProtos_render (rows : List (List PyNum)) (ws rest : List Char)
    (hws : ws.all isWs = true) :
    parseProtos (ws ++ (renderProtosL rows ++ rest)) = some (rows, rest) := by
  unfold parseProtos renderProtosL
  exact parseArr_render (parseArr parseNumWs) (renderArrWith 2 renderNumL) 1
    (fun x ws2 r2 h1 _ => parseRow_item x ws2 r2 h1)
    renderRow_head rows ws rest hws

theorem renderStringL_head (s : String) :
    ∃ c cs, renderStringL s = c :: cs ∧ isWs c = false ∧ ¬(c = ']') :=
  ⟨'\"', escapeList s.data ++ ['\"'], rfl, by decide, by decide⟩

theorem parseNames_render (names : List String) (ws rest : List Char)
    (hws : ws.all isWs = true) :
    parseNames (ws ++ (renderNamesL names ++ rest)) = some (names, rest) := by
  unfold parseNames renderNamesL
  exact parseArr_render parseStringWs renderStringL 1
    (fun x ws2 r2 h1 _ => parseStringWs_item x ws2 r2 h1)
    renderStringL_head names ws rest hws

theorem data_mk (l : List Char) : (String.mk l).data = l := rfl

theorem keyString_parse (s : String) (rest : List Char) :
    parseString (skipWs ('\n' :: (indChars 1 ++ (renderStringL s ++ rest)))) =
      some (s, rest) := by
  rw [skipWs_cons_ws (by decide), skipWs_ws_append (indChars_all_ws 1)]
  rw [show renderStringL s ++ rest =
    '\"' :: ((escapeList s.data ++ ['\"']) ++ rest) from rfl]
  rw [skipWs_cons_not (by decide)]
  rw [show '\"' :: ((escapeList s.data ++ ['\"']) ++ rest) =
    renderStringL s ++ rest from rfl]
  exact parseString_render s rest

theorem expectColon_step (rest : List Char) :
    expectColon (':' :: ' ' :: rest) = some (' ' :: rest) := by
  unfold expectColon
  rw [skipWs_cons_not (by decide)]
  simp

theorem expectComma_step (rest : List Char) :
    expectComma (',' :: rest) = some rest := by
  unfold expectComma
  rw [skipWs_cons_not (by decide)]
  simp

theorem protosVal_parse (rows : List (List PyNum)) (rest : List Char) :
    parseProtos (' ' :: (renderProtosL rows ++ rest)) = some (rows, rest) := by
  have := parseProtos_render rows [' '] rest (by decide)
  simpa using this

theorem namesVal_parse (names : List String) (rest : List Char) :
    parseNames (' ' :: (renderNamesL names ++ rest)) = some (names, rest) := by
  have := parseNames_render names [' '] rest (by decide)
  simpa using this

theorem defectVal_parse (i : Int) :
    parseNum (skipWs (' ' :: (renderIntL i ++ ('\n' :: rbrace :: [])))) =
      some (.int i, '\n' :: rbrace :: []) := by
  rw [skipWs_cons_ws (by decide)]
  obtain ⟨c, cs, hct, hcws, _⟩ := renderNumL_head (.int i)
  rw [show renderIntL i = renderNumL (.int i) from rfl, hct, List.cons_append,
    skipWs_cons_not hcws, ← List.cons_append, ← hct]
  refine parseNum_render (.int i) _ ?_
  intro c' t' hh
  cases hh
  exact ⟨by decide, by decide⟩

theorem parseResult_render (r : ConversionResult) :
    parseResult (renderResultStr r) = some r := by
  obtain ⟨P, N, D⟩ := r
  unfold parseResult renderResultStr renderResultL
  simp only [data_mk]
  rw [skipWs_cons_not (by decide)]
  simp only [eq_self_iff_true, if_true]
  rw [keyString_parse]
  simp only [eq_self_iff_true, if_true]
  rw [expectColon_step]
  simp only [eq_self_iff_true, if_true]
  rw [protosVal_parse]
  simp only [eq_self_iff_true, if_true]
  rw [expectComma_step]
  simp only [eq_self_iff_true, if_true]
  rw [keyString_parse]
  simp only [eq_self_iff_true, if_true]
  rw [expectColon_step]
  simp only [eq_self_iff_true, if_true]
  rw [namesVal_parse]
  simp only [eq_self_iff_true, if_true]
  rw [expectComma_step]
  simp only [eq_self_iff_true, if_true]
  rw [keyString_parse]
  simp only [eq_self_iff_true, if_true]
  rw [expectColon_step]
  simp only [eq_self_iff_true, if_true]
  rw [show ('\n' :: (rbrace :: []) : List Char) = '\n' :: rbrace :: [] from rfl]
  rw [defectVal_parse]
  simp only [eq_self_iff_true, if_true]
  rw [skipWs_cons_ws (by decide), skipWs_cons_not (by decide)]
  simp only [eq_self_iff_true, if_true]
  rw [show skipWs [] = [] from rfl]

/-! ## Lemmas: the script's control flow -/

theorem pickleLoad_ok (fs : FS) (p : Path) (d : SourceData)
    (h : findFile fs.files p = some (.pickle d)) :
    pickleLoad fs p = .ok d := by
  unfold pickleLoad
  rw [h]

theorem writeText_ok_of (fs : FS) (p : Path) (s : String)
    (hnd : memPath fs.dirs p = false)
    (hpar : memPath fs.dirs p.dropLast = true) :
    writeText fs p s = .ok ⟨fs.dirs, setFile fs.files p (.text s)⟩ := by
  unfold writeText
  rw [if_neg (by simp [hnd]), if_pos (by rw [hpar])]

theorem convert_ok_inv (fs : FS) (pp jp : Path) (fs1 : FS) (log : List String)
    (jd : ConversionResult)
    (h : convert_pickle_to_json fs pp jp = .ok fs1 log jd) :
    ∃ d, pickleLoad fs pp = .ok d ∧ jd = convertData d ∧
      writeText fs jp (renderResultStr jd) = .ok fs1 := by
  unfold convert_pickle_to_json at h
  cases hpl : pickleLoad fs pp with
  | error e =>
    rw [hpl] at h
    exact absurd h (by simp)
  | ok data =>
    rw [hpl] at h
    simp only [] at h
    cases hw : writeText fs jp (renderResultStr (convertData data)) with
    | error e =>
      rw [hw] at h
      exact absurd h (by simp)
    | ok fs1' =>
      rw [hw] at h
      cases hprot : normalizePrototypes data with
      | nil =>
        rw [hprot] at h
        exact absurd h (by simp)
      | cons r0 rows =>
        rw [hprot] at h
        simp only [ConvResult.ok.injEq] at h
        obtain ⟨h1, _, h3⟩ := h
        subst h1
        subst h3
        exact ⟨data, rfl, rfl, hw⟩

theorem convert_empty_run (fs : FS) (pp jp : Path) (d : SourceData)
    (hp : findFile fs.files pp = some (.pickle d))
    (hprot : normalizePrototypes d = [])
    (hnd : memPath fs.dirs jp = false)
    (hpar : memPath fs.dirs jp.dropLast = true) :
    convert_pickle_to_json fs pp jp =
      .exited ⟨fs.dirs, setFile fs.files jp (.text (renderResultStr (convertData d)))⟩
        (["Loaded pickle file: " ++ showPath pp, keysLine d] ++
          ["\nConverted successfully!"])
        "list index out of range" := by
  unfold convert_pickle_to_json
  rw [pickleLoad_ok fs pp d hp]
  simp only []
  rw [writeText_ok_of fs jp (renderResultStr (convertData d)) hnd hpar]
  rw [hprot]

theorem jsonPath_ne_modelJsonPath (sd : Path) :
    jsonPath sd ≠ modelJsonPath sd := by
  intro h
  have hlen := congrArg List.length h
  simp only [jsonPath, modelJsonPath, List.length_append, List.length_cons,
    List.length_nil, List.length_dropLast] at hlen
  omega

theorem jsonPath_dropLast (sd : Path) : (jsonPath sd).dropLast = sd := by
  unfold jsonPath
  exact List.dropLast_concat

theorem mainSteps_success_inv (sd : Path) (fs fs3 : FS) (log : List String)
    (h : mainSteps sd fs = .success fs3 log) :
    ∃ jd, findFile fs3.files (jsonPath sd) =
        some (.text (renderResultStr jd)) ∧
      findFile fs3.files (modelJsonPath sd) =
        some (.text (renderResultStr jd)) := by
  unfold mainSteps at h
  split at h
  · cases hconv : convert_pickle_to_json fs (picklePath sd) (jsonPath sd) with
    | exited f l e =>
      rw [hconv] at h
      exact absurd h (by simp)
    | ok fs1 log1 jd0 =>
      rw [hconv] at h
      simp only [] at h
      cases hmk : mkdirParents fs1 (modelJsonPath sd).dropLast with
      | error e =>
        rw [hmk] at h
        exact absurd h (by simp)
      | ok fs2 =>
        rw [hmk] at h
        simp only [] at h
        cases hrd : readText fs2 (jsonPath sd) with
        | error e =>
          rw [hrd] at h
          exact absurd h (by simp)
        | ok s =>
          rw [hrd] at h
          simp only [] at h
          cases hjl : jsonLoad s with
          | error e =>
            rw [hjl] at h
            exact absurd h (by simp)
          | ok jd2 =>
            rw [hjl] at h
            simp only [] at h
            cases hwt : writeText fs2 (modelJsonPath sd)
                (renderResultStr jd2) with
            | error e =>
              rw [hwt] at h
              exact absurd h (by simp)
            | ok fs3' =>
              rw [hwt] at h
              simp only [MainOutcome.success.injEq] at h
              obtain ⟨hfs3, -⟩ := h
              subst hfs3
              obtain ⟨d, hpl, hjd, hw1⟩ :=
                convert_ok_inv fs (picklePath sd) (jsonPath sd) fs1 log1 jd0
                  hconv
              obtain ⟨-, hf1⟩ := writeText_ok fs (jsonPath sd) _ fs1 hw1
              have hf2 : fs2.files = fs1.files := mkdirParents_ok fs1 _ fs2 hmk
              have hjp : findFile fs2.files (jsonPath sd) =
                  some (.text (renderResultStr jd0)) := by
                rw [hf2, hf1]
                exact findFile_setFile_self _ _ _
              have hs : s = renderResultStr jd0 := by
                unfold readText at hrd
                rw [hjp] at hrd
                simp at hrd
                exact hrd.symm
              have hjd2 : jd2 = jd0 := by
                unfold jsonLoad at hjl
                rw [hs, parseResult_render jd0] at hjl
                simp at hjl
                exact hjl.symm
              obtain ⟨-, hf3⟩ :=
                writeText_ok fs2 (modelJsonPath sd) _ fs3' hwt
              refine ⟨jd0, ?_, ?_⟩
              · rw [hf3, hjd2,
                  findFile_setFile_ne _ _ _ _ (jsonPath_ne_modelJsonPath sd),
                  hjp]
              · rw [hf3, hjd2]
                exact findFile_setFile_self _ _ _
  · exact absurd h (by simp)

/-- The diagnostic lines the script can print on failure: the caught-exception
report from `convert_pickle_to_json`, or the interpreter traceback of an
uncaught exception. -/
def isDiagnosticLine (line : String) : Prop :=
  (∃ m, line = "Error converting pickle file: " ++ m) ∨
  (∃ m, line = "Traceback (most recent call last): " ++ m)

end PrintMon

namespace PrintMon

/-! ## Scenario inputs -/

/-- A directory for the script in the reference layout. -/
def scriptDir0 : Path := ["repo", "scripts"]

/-- Directories existing before a run: the repo root and the script dir. -/
def dirs0 : List Path := [["repo"], ["repo", "scripts"]]

/-- The two-row scenario source: a plain nested list with metadata. -/
def goodSource : SourceData :=
  ⟨some ⟨false, [], false, [], [[.float 1, .float 2], [.float 3, .float 4]]⟩,
    some ["bad", "good"], some 1⟩

/-- Filesystem holding the two-row scenario pickle. -/
def fsGood : FS := ⟨dirs0, [(picklePath scriptDir0, .pickle goodSource)]⟩

/-- The empty-mapping source. -/
def emptySource : SourceData := ⟨none, none, none⟩

/-- Filesystem holding a pickle of the empty mapping. -/
def fsEmpty : FS := ⟨dirs0, [(picklePath scriptDir0, .pickle emptySource)]⟩

/-- Filesystem holding an unpicklable source file. -/
def fsGarbage : FS := ⟨dirs0, [(picklePath scriptDir0, .garbage)]⟩

/-- The document the scenario run writes. -/
def goodDoc : String :=
  "\x7b\n  \"prototypes\": [\n    [\n      1.0,\n      2.0\n    ],\n    [\n      3.0,\n      4.0\n    ]\n  ],\n  \"class_names\": [\n    \"bad\",\n    \"good\"\n  ],\n  \"defect_idx\": 1\n\x7d"

/-- The document the empty-mapping conversion writes. -/
def emptyDoc : String :=
  "\x7b\n  \"prototypes\": [],\n  \"class_names\": [\n    \"failure\",\n    \"success\"\n  ],\n  \"defect_idx\": 0\n\x7d"

end PrintMon

namespace PrintMon

/-! ## Claims -/

/-- Claim C1: the spec says a source decoding to the empty mapping yields a
successful run with the default document at both destinations.  The code
instead raises IndexError in the shape-report print after the primary write
(the defaulting of prototypes to the empty list shows the empty case was
meant to be supported), so the run exits with status 1, the primary file
holds the default document, and the secondary file is never created. -/
theorem claim1_empty_scenario :
    (main scriptDir0 fsEmpty).exitCode = 1 ∧
    findFile (main scriptDir0 fsEmpty).fs.files (jsonPath scriptDir0) =
      some (.text emptyDoc) ∧
    findFile (main scriptDir0 fsEmpty).fs.files (modelJsonPath scriptDir0) =
      none := by
  refine ⟨rfl, rfl, rfl⟩

/-- Claim C2 (counterexample): writeJson does not create the destination's
parent directories; on a filesystem without the parent directory the write
raises instead of succeeding, refuting the claim that parent directories are
created as needed for every destination. -/
theorem claim2_counterexample :
    writeJson ⟨[], []⟩ ["model", "prototypes.json"]
      ⟨[], ["failure", "success"], 0⟩ = .error "No such file or directory" :=
  rfl

/-- Claim C2 (amended): writeJson serializes the result as the two-space
indented JSON document with field order prototypes, class_names, defect_idx
(renderResultStr) to the destination path when the parent directory exists,
and it never creates directories: when the parent is missing the write
fails.  In the program, only the secondary destination gets its parents
created, by a separate mkdir step before the secondary write. -/
theorem claim2_writeJson_spec (fs : FS) (p : Path) (r : ConversionResult) :
    (memPath fs.dirs p.dropLast = false → ∃ e, writeJson fs p r = .error e) ∧
    (memPath fs.dirs p.dropLast = true → memPath fs.dirs p = false →
      writeJson fs p r =
        .ok ⟨fs.dirs, setFile fs.files p (.text (renderResultStr r))⟩) := by
  constructor
  · intro hno
    unfold writeJson writeText
    by_cases hd : memPath fs.dirs p = true
    · exact ⟨"IsADirectoryError", by rw [if_pos hd]⟩
    · exact ⟨"No such file or directory",
        by rw [if_neg hd, if_neg (by simp [hno])]⟩
  · intro hpar hnd
    exact writeText_ok_of fs p _ hnd hpar

/-- Claim C2 (witness): a destination with a missing parent directory fails;
one with an existing parent succeeds and stores the rendered document while
leaving the directory set unchanged. -/
theorem claim2_witness :
    (∃ e, writeJson ⟨[], []⟩ ["d", "out.json"] ⟨[], [], 0⟩ = .error e) ∧
    writeJson ⟨[["d"]], []⟩ ["d", "out.json"] ⟨[], [], 0⟩ =
      .ok ⟨[["d"]], setFile [] ["d", "out.json"]
        (.text (renderResultStr ⟨[], [], 0⟩))⟩ :=
  ⟨(claim2_writeJson_spec ⟨[], []⟩ ["d", "out.json"] ⟨[], [], 0⟩).1 (by decide),
   (claim2_writeJson_spec ⟨[["d"]], []⟩ ["d", "out.json"] ⟨[], [], 0⟩).2
     (by decide) (by decide)⟩

/-- Claim C3: when the source pickle path does not exist the run exits with
status 1 and the filesystem is completely untouched, so neither output file
is created or modified. -/
theorem claim3_missing_input (sd : Path) (fs : FS)
    (h : pathExists fs (picklePath sd) = false) :
    (main sd fs).exitCode = 1 ∧ (main sd fs).fs = fs := by
  unfold main mainSteps
  rw [if_neg (by simp [h])]
  exact ⟨rfl, rfl⟩

/-- Claim C3 (witness): on the empty filesystem the run exits 1 leaving the
filesystem unchanged. -/
theorem claim3_witness :
    (main ["repo", "scripts"] ⟨[], []⟩).exitCode = 1 ∧
    (main ["repo", "scripts"] ⟨[], []⟩).fs = ⟨[], []⟩ :=
  claim3_missing_input ["repo", "scripts"] ⟨[], []⟩ rfl

/-- Claim C4: after every run that exits with status 0, the primary and
secondary output files hold the same text, hence are byte-identical. -/
theorem claim4_outputs_identical (sd : Path) (fs : FS)
    (h : (main sd fs).exitCode = 0) :
    ∃ s, findFile (main sd fs).fs.files (jsonPath sd) = some (.text s) ∧
      findFile (main sd fs).fs.files (modelJsonPath sd) = some (.text s) := by
  unfold main at h ⊢
  cases hms : mainSteps sd fs with
  | missingInput f =>
    rw [hms] at h
    simp at h
  | convertExit f l e =>
    rw [hms] at h
    simp at h
  | copyError f l e =>
    rw [hms] at h
    simp at h
  | success f l =>
    obtain ⟨jd, h1, h2⟩ := mainSteps_success_inv sd fs f l hms
    exact ⟨renderResultStr jd, h1, h2⟩

/-- Claim C4 (witness): the two-row scenario run succeeds and both output
files hold the same text. -/
theorem claim4_witness :
    (main scriptDir0 fsGood).exitCode = 0 ∧
    ∃ s, findFile (main scriptDir0 fsGood).fs.files (jsonPath scriptDir0) =
        some (.text s) ∧
      findFile (main scriptDir0 fsGood).fs.files (modelJsonPath scriptDir0) =
        some (.text s) :=
  ⟨rfl, claim4_outputs_identical scriptDir0 fsGood rfl⟩

/-- Claim C5: writing the converted result with writeJson and re-parsing the
written file yields a value structurally equal to the converted result, for
every decodable source mapping. -/
theorem claim5_roundtrip (d : SourceData) (fs : FS) (p : Path) (fs' : FS)
    (h : writeJson fs p (convertData d) = .ok fs') :
    ∃ s, findFile fs'.files p = some (.text s) ∧
      parseResult s = some (convertData d) := by
  obtain ⟨-, hf⟩ := writeText_ok fs p _ fs' h
  exact ⟨renderResultStr (convertData d),
    by rw [hf]; exact findFile_setFile_self _ _ _,
    parseResult_render _⟩

/-- Claim C5 (witness): round trip on the empty-mapping conversion after a
concrete successful write. -/
theorem claim5_witness :
    ∃ s, findFile (setFile [] ["d", "out.json"]
        (.text (renderResultStr (convertData emptySource)))) ["d", "out.json"] =
      some (.text s) ∧ parseResult s = some (convertData emptySource) :=
  claim5_roundtrip emptySource ⟨[["d"]], []⟩ ["d", "out.json"]
    ⟨[["d"]], setFile [] ["d", "out.json"]
      (.text (renderResultStr (convertData emptySource)))⟩ rfl

/-- Claim C6: for the two-row scenario source the run succeeds and writes the
expected JSON document at both destination paths. -/
theorem claim6_scenario :
    (main scriptDir0 fsGood).exitCode = 0 ∧
    findFile (main scriptDir0 fsGood).fs.files (jsonPath scriptDir0) =
      some (.text goodDoc) ∧
    findFile (main scriptDir0 fsGood).fs.files (modelJsonPath scriptDir0) =
      some (.text goodDoc) := by
  refine ⟨rfl, rfl, rfl⟩

/-- Claim C7: an absent class_names key defaults to failure, success and an
absent defect_idx defaults to 0; present values are carried through
unchanged. -/
theorem claim7_metadata_defaults (d : SourceData) :
    (d.class_names = none →
      (convertData d).class_names = ["failure", "success"]) ∧
    (∀ cn, d.class_names = some cn → (convertData d).class_names = cn) ∧
    (d.defect_idx = none → (convertData d).defect_idx = 0) ∧
    (∀ i, d.defect_idx = some i → (convertData d).defect_idx = i) := by
  refine ⟨?_, ?_, ?_, ?_⟩
  · intro h
    simp [convertData, h]
  · intro cn h
    simp [convertData, h]
  · intro h
    simp [convertData, h]
  · intro i h
    simp [convertData, h]

/-- Claim C7 (witness): the defaults fire on the empty mapping and present
values pass through. -/
theorem claim7_witness :
    (convertData ⟨none, none, none⟩).class_names = ["failure", "success"] ∧
    (convertData ⟨none, some ["bad", "good"], some 1⟩).class_names =
      ["bad", "good"] ∧
    (convertData ⟨none, none, none⟩).defect_idx = 0 ∧
    (convertData ⟨none, some ["bad", "good"], some 1⟩).defect_idx = 1 :=
  ⟨(claim7_metadata_defaults ⟨none, none, none⟩).1 rfl,
   (claim7_metadata_defaults ⟨none, some ["bad", "good"], some 1⟩).2.1 _ rfl,
   (claim7_metadata_defaults ⟨none, none, none⟩).2.2.1 rfl,
   (claim7_metadata_defaults ⟨none, some ["bad", "good"], some 1⟩).2.2.2 _ rfl⟩

/-- Claim C8: the numeric field is normalized by an ordered dispatch: a
present value with the numpy capability converts through numpy-then-tolist
regardless of its other capabilities; otherwise one with tolist converts
through tolist; otherwise it is coerced with list; an absent field yields
the empty table. -/
theorem claim8_dispatch (d : SourceData) :
    (d.prototypes = none → (convertData d).prototypes = []) ∧
    (∀ o, d.prototypes = some o → o.hasNumpy = true →
      (convertData d).prototypes = o.numpyTolist) ∧
    (∀ o, d.prototypes = some o → o.hasNumpy = false → o.hasTolist = true →
      (convertData d).prototypes = o.tolist) ∧
    (∀ o, d.prototypes = some o → o.hasNumpy = false → o.hasTolist = false →
      (convertData d).prototypes = o.asList) := by
  refine ⟨?_, ?_, ?_, ?_⟩
  · intro h
    simp [convertData, normalizePrototypes, h]
  · intro o h h1
    simp [convertData, normalizePrototypes, h, h1]
  · intro o h h1 h2
    simp [convertData, normalizePrototypes, h, h1, h2]
  · intro o h h1 h2
    simp [convertData, normalizePrototypes, h, h1, h2]

/-- Claim C8 (witness): dispatch on objects exposing several, one, or no
conversion capabilities, and on the absent field. -/
theorem claim8_witness :
    (convertData ⟨none, none, none⟩).prototypes = [] ∧
    (convertData ⟨some ⟨true, [[.int 1]], true, [[.int 2]], [[.int 3]]⟩,
      none, none⟩).prototypes = [[.int 1]] ∧
    (convertData ⟨some ⟨false, [[.int 1]], true, [[.int 2]], [[.int 3]]⟩,
      none, none⟩).prototypes = [[.int 2]] ∧
    (convertData ⟨some ⟨false, [[.int 1]], false, [[.int 2]], [[.int 3]]⟩,
      none, none⟩).prototypes = [[.int 3]] :=
  ⟨(claim8_dispatch ⟨none, none, none⟩).1 rfl,
   (claim8_dispatch _).2.1 ⟨true, [[.int 1]], true, [[.int 2]], [[.int 3]]⟩
     rfl rfl,
   (claim8_dispatch _).2.2.1 ⟨false, [[.int 1]], true, [[.int 2]], [[.int 3]]⟩
     rfl rfl rfl,
   (claim8_dispatch _).2.2.2 ⟨false, [[.int 1]], false, [[.int 2]], [[.int 3]]⟩
     rfl rfl rfl⟩

/-- Claim C9: whenever an exception is raised during the convert,
primary-write, or copy steps, the process exits with status 1 and a
diagnostic line is printed; such an exception never yields exit status 0. -/
theorem claim9_exceptions (sd : Path) (fs : FS) (e : String)
    (h : raisedDuring (mainSteps sd fs) = some e) :
    (main sd fs).exitCode = 1 ∧
    ∃ line, line ∈ (main sd fs).log ∧ isDiagnosticLine line := by
  unfold main
  cases hms : mainSteps sd fs with
  | missingInput f =>
    rw [hms] at h
    simp [raisedDuring] at h
  | success f l =>
    rw [hms] at h
    simp [raisedDuring] at h
  | convertExit f l e' =>
    exact ⟨rfl, "Error converting pickle file: " ++ e', by simp,
      Or.inl ⟨e', rfl⟩⟩
  | copyError f l e' =>
    exact ⟨rfl, "Traceback (most recent call last): " ++ e', by simp,
      Or.inr ⟨e', rfl⟩⟩

/-- Claim C9 (witness): an unpicklable source raises during convert; the run
exits 1 with a diagnostic. -/
theorem claim9_witness :
    raisedDuring (mainSteps scriptDir0 fsGarbage) = some "invalid load key" ∧
    ((main scriptDir0 fsGarbage).exitCode = 1 ∧
      ∃ line, line ∈ (main scriptDir0 fsGarbage).log ∧ isDiagnosticLine line) :=
  ⟨rfl, claim9_exceptions scriptDir0 fsGarbage "invalid load key" rfl⟩

/-- Claim C10: a source whose normalized prototypes table is empty makes the
run exit with status 1 after the primary JSON file has been written; the
secondary copy is never created, the directory set is unchanged, and the
printed diagnostic is the IndexError from indexing the first row of the
empty table. -/
theorem claim10_empty_prototypes (sd : Path) (fs : FS) (d : SourceData)
    (hp : findFile fs.files (picklePath sd) = some (.pickle d))
    (hprot : normalizePrototypes d = [])
    (hdir : memPath fs.dirs sd = true)
    (hnd : memPath fs.dirs (jsonPath sd) = false) :
    (main sd fs).exitCode = 1 ∧
    (main sd fs).fs.files =
      setFile fs.files (jsonPath sd)
        (.text (renderResultStr (convertData d))) ∧
    (main sd fs).fs.dirs = fs.dirs ∧
    findFile (main sd fs).fs.files (modelJsonPath sd) =
      findFile fs.files (modelJsonPath sd) ∧
    "Error converting pickle file: list index out of range" ∈
      (main sd fs).log := by
  have hpar : memPath fs.dirs (jsonPath sd).dropLast = true := by
    rw [jsonPath_dropLast]
    exact hdir
  have hconv := convert_empty_run fs (picklePath sd) (jsonPath sd) d hp hprot
    hnd hpar
  have hex : pathExists fs (picklePath sd) = true := by
    unfold pathExists
    rw [hp]
    rfl
  unfold main mainSteps
  rw [if_pos (by rw [hex]), hconv]
  refine ⟨rfl, rfl, rfl, ?_, ?_⟩
  · exact findFile_setFile_ne fs.files (jsonPath sd) (modelJsonPath sd) _
      (Ne.symm (jsonPath_ne_modelJsonPath sd))
  · simp

/-- Claim C10 (witness): the empty-mapping pickle triggers the partial-write
failure exactly as described. -/
theorem claim10_witness :
    (main scriptDir0 fsEmpty).exitCode = 1 ∧
    (main scriptDir0 fsEmpty).fs.files =
      setFile fsEmpty.files (jsonPath scriptDir0)
        (.text (renderResultStr (convertData emptySource))) ∧
    (main scriptDir0 fsEmpty).fs.dirs = fsEmpty.dirs ∧
    findFile (main scriptDir0 fsEmpty).fs.files (modelJsonPath scriptDir0) =
      findFile fsEmpty.files (modelJsonPath scriptDir0) ∧
    "Error converting pickle file: list index out of range" ∈
      (main scriptDir0 fsEmpty).log :=
  claim10_empty_prototypes scriptDir0 fsEmpty emptySource rfl rfl
    (by decide) (by decide)

end PrintMon
